import Mathlib

/-!
Verification of the value-to-color mapping and spatial-cell assembly pipeline of the
europe-climate-bi dashboard (`src/app/page.js`).

JS numbers are modelled as rationals (`ℚ`), rounded color channels as integers (`ℤ`);
`Math.round` is `⌊x + 1/2⌋` (round half toward +∞), which agrees with JS for the
values arising here.  Missing JS values (`null`/`undefined`) are `Option.none`.
-/

/-- An RGB color triple, channels as integers (JS color arrays `[r,g,b]`). -/
abbrev Color := ℤ × ℤ × ℤ

/-- JS `Math.round`: round half toward positive infinity. -/
def jsRound (q : ℚ) : ℤ := ⌊q + 1/2⌋

/-- `lerp(a, b, t)` from page.js: per-channel linear interpolation, rounded. -/
def lerp (a b : Color) (t : ℚ) : Color :=
  (jsRound ((a.1 : ℚ) + ((b.1 : ℚ) - (a.1 : ℚ)) * t),
   jsRound ((a.2.1 : ℚ) + ((b.2.1 : ℚ) - (a.2.1 : ℚ)) * t),
   jsRound ((a.2.2 : ℚ) + ((b.2.2 : ℚ) - (a.2.2 : ℚ)) * t))

/-- A gradient stop `{ at, color }` from page.js. -/
structure Stop where
  «at» : ℚ
  color : Color
deriving DecidableEq

/-- `TEMP_STOPS` from page.js. -/
def TEMP_STOPS : List Stop :=
  [⟨0, (33, 102, 172)⟩, ⟨1/2, (255, 255, 255)⟩, ⟨1, (178, 24, 43)⟩]

/-- `PRECIP_STOPS` from page.js. -/
def PRECIP_STOPS : List Stop :=
  [⟨0, (255, 255, 204)⟩, ⟨2/5, (65, 182, 196)⟩, ⟨1, (12, 44, 132)⟩]

/-- `SUN_STOPS` from page.js. -/
def SUN_STOPS : List Stop :=
  [⟨0, (74, 20, 134)⟩, ⟨1/5, (43, 140, 190)⟩, ⟨2/5, (166, 217, 237)⟩,
   ⟨3/5, (254, 227, 145)⟩, ⟨4/5, (244, 109, 67)⟩, ⟨1, (255, 204, 0)⟩]

/-- `GREEN_RED_STOPS` from page.js: green→yellow→red gradient for city bubbles. -/
def GREEN_RED_STOPS : List Stop :=
  [⟨0, (34, 139, 34)⟩, ⟨1/2, (255, 200, 0)⟩, ⟨1, (200, 30, 30)⟩]

/-- The inner loop of `multiStopColor`: scan consecutive stop pairs, returning the
interpolated color for the first segment whose upper stop position bounds `ratio`. -/
def findSeg (ratio : ℚ) : Stop → List Stop → Option Color
  | _, [] => none
  | s0, s1 :: rest =>
    if ratio ≤ s1.«at» then
      some (lerp s0.color s1.color ((ratio - s0.«at») / (s1.«at» - s0.«at»)))
    else findSeg ratio s1 rest

/-- `multiStopColor(ratio, stops)` from page.js.  Ratio at or below the first stop
returns the first stop's color; at or above the last stop, the last stop's color;
otherwise the segment scan (the trailing `return stops[stops.length-1].color` is the
`getD` default).  An empty stop list (which would throw in JS, and never occurs)
is given a junk value. -/
def multiStopColor (ratio : ℚ) (stops : List Stop) : Color :=
  match stops with
  | [] => (0, 0, 0)
  | s0 :: rest =>
    if ratio ≤ s0.«at» then s0.color
    else if (rest.getLastD s0).«at» ≤ ratio then (rest.getLastD s0).color
    else (findSeg ratio s0 rest).getD (rest.getLastD s0).color

/-- The three heatmap variables (keys of `VARIABLES` / `STOP_MAP` in page.js). -/
inductive Variable
  | temperature
  | precipitation
  | sunshine
deriving DecidableEq

/-- `STOP_MAP` from page.js. -/
def STOP_MAP : Variable → List Stop
  | .temperature => TEMP_STOPS
  | .precipitation => PRECIP_STOPS
  | .sunshine => SUN_STOPS

/-- The normalized ratio computed identically in `getColor` and `bubbleColor`:
`range === 0 ? 0.5 : Math.max(0, Math.min(1, (value - min) / range))`. -/
def clampedRatio (value mn mx : ℚ) : ℚ :=
  let range := mx - mn
  if range = 0 then 1/2 else max 0 (min 1 ((value - mn) / range))

/-- `getColor(variable, value, min, max)` from page.js, returning the RGB triple
paired with the fixed area-fill alpha 179. -/
def getColor (vr : Variable) (value mn mx : ℚ) : Color × ℤ :=
  (multiStopColor (clampedRatio value mn mx) (STOP_MAP vr), 179)

/-- `bubbleColor(value, min, max, invert)` from page.js: `null` values give the
neutral gray, otherwise the clamped (and optionally reflected) ratio is looked up
in the green→yellow→red gradient; bubble alpha is 220. -/
def bubbleColor (value : Option ℚ) (mn mx : ℚ) (invert : Bool) : Color × ℤ :=
  match value with
  | none => ((160, 160, 160), 220)
  | some v =>
    let ratio0 := clampedRatio v mn mx
    let ratio := if invert then 1 - ratio0 else ratio0
    (multiStopColor ratio GREEN_RED_STOPS, 220)

/-- `CELL_SIZE` from page.js (0.21°). -/
def CELL_SIZE : ℚ := 21/100

/-- `HALF = CELL_SIZE / 2` from page.js. -/
def HALF : ℚ := CELL_SIZE / 2

/-- One emitted heatmap cell `{polygon, value, i, j}` from the assembly loop. -/
structure Cell where
  polygon : List (ℚ × ℚ)
  value : ℚ
  i : ℕ
  j : ℕ
deriving DecidableEq

/-- `grid[i][j]` with JS out-of-bounds reads yielding `undefined` (`none`). -/
def valueAt (grid : List (List (Option ℚ))) (i j : ℕ) : Option ℚ :=
  (grid.getD i []).getD j none

/-- The cell literal pushed by the assembly loop for position `(i, j)`:
an axis-aligned square of half-width `HALF` centered on `(lons[j], lats[i])`. -/
def mkCell (lats lons : List ℚ) (i j : ℕ) (val : ℚ) : Cell :=
  { polygon := [(lons.getD j 0 - HALF, lats.getD i 0 - HALF),
                (lons.getD j 0 + HALF, lats.getD i 0 - HALF),
                (lons.getD j 0 + HALF, lats.getD i 0 + HALF),
                (lons.getD j 0 - HALF, lats.getD i 0 + HALF)],
    value := val, i := i, j := j }

/-- The cell assembly double loop from the layer-update effect in page.js
(spec name `buildCells`): iterate all `(i, j)`, skip `null`/`undefined` values,
emit a cell carrying the value and its indices. -/
def buildCells (lats lons : List ℚ) (grid : List (List (Option ℚ))) : List Cell :=
  (List.range lats.length).flatMap fun i =>
    (List.range lons.length).filterMap fun j =>
      (valueAt grid i j).map (mkCell lats lons i j)

/-- A city record, restricted to the fields the bubble metrics read.
Hyphenated JS keys are spelled with underscores.  All fields are nullable. -/
structure City where
  resilience_score : Option ℚ
  cost_of_living_index : Option ℚ
  one_bedroom_city_rent : Option ℚ
  delta_temp_c : Option ℚ
  delta_precip_pct : Option ℚ
deriving DecidableEq

/-- The five bubble metrics (keys of `BUBBLE_METRICS` in page.js). -/
inductive BubbleMetric
  | resilience_score
  | cost_of_living_index
  | one_bedroom_city_rent
  | delta_temp_c
  | delta_precip_pct
deriving DecidableEq

/-- The `getValue` accessors of `BUBBLE_METRICS`; `delta_precip_pct` takes the
absolute value of a present signed percentage. -/
def BubbleMetric.getValue : BubbleMetric → City → Option ℚ
  | .resilience_score, d => d.resilience_score
  | .cost_of_living_index, d => d.cost_of_living_index
  | .one_bedroom_city_rent, d => d.one_bedroom_city_rent
  | .delta_temp_c, d => d.delta_temp_c
  | .delta_precip_pct, d =>
    match d.delta_precip_pct with
    | some x => some |x|
    | none => none

/-- The `invert` flags of `BUBBLE_METRICS`: only `resilience_score` is inverted. -/
def BubbleMetric.invert : BubbleMetric → Bool
  | .resilience_score => true
  | _ => false

/-- The bubble range effect body (spec name `rangeFor`): collect present accessor
outputs; if any exist, return their min and max (`Math.min(...vals)` /
`Math.max(...vals)`), otherwise keep the previous range unchanged. -/
def rangeFor (records : List City) (acc : City → Option ℚ) (prev : ℚ × ℚ) : ℚ × ℚ :=
  let vals := (records.map acc).reduceOption
  match vals with
  | [] => prev
  | v :: vs => (vs.foldl min v, vs.foldl max v)

/-- The initial bubble range `useRef({ min: 0, max: 1 })`. -/
def bubbleRangeInit : ℚ × ℚ := (0, 1)

/-- A session-long sequence of bubble-range updates applied from the initial range. -/
def runUpdates (updates : List (BubbleMetric × List City)) : ℚ × ℚ :=
  updates.foldl (fun st u => rangeFor u.2 u.1.getValue st) bubbleRangeInit

/-- A monthly climate dataset as fetched (fields of the climate JSON). -/
structure ClimateData where
  lats : List ℚ
  lons : List ℚ
  temperature : List (List (Option ℚ))
  precipitation : List (List (Option ℚ))
  sunshine : List (List (Option ℚ))

/-- `MONTH_KEYS` from page.js. -/
def MONTH_KEYS : List String :=
  ["jan", "feb", "mar", "apr", "may", "jun",
   "jul", "aug", "sep", "oct", "nov", "dec"]

/-- The mutable session state touched by `fetchMonth`: the `cache.current`
key-to-dataset map (as an association list) and the displayed `climateData`. -/
structure SessionState where
  cache : List (String × ClimateData)
  climateData : Option ClimateData

/-- `cache.current[key]` lookup. -/
def lookupCache (cache : List (String × ClimateData)) (key : String) : Option ClimateData :=
  match cache.find? (fun kv => kv.1 == key) with
  | some kv => some kv.2
  | none => none

/-- How a `fetchMonth` call resolves: a cache hit (no network access), or an
issued network fetch whose promise either fulfills (`fetchOk`) or rejects
(`fetchFail`). -/
inductive FetchEvent
  | cacheHit
  | fetchOk
  | fetchFail
deriving DecidableEq

/-- `fetchMonth(monthIdx)` from page.js as a state transition.  A cached key sets
`climateData` from the cache and returns without touching the network.  Otherwise
a network fetch is issued, and `result` is how its promise settles: on fulfillment
(`some d`) the `.then` handler writes the cache and displays `d`; on rejection
(`none`) there is no `.catch`, so neither handler runs — the cache is not written
and the previously displayed dataset is kept (`.finally` only clears the loading
flag, which is not part of this state). -/
def fetchMonth (st : SessionState) (monthIdx : ℕ) (result : Option ClimateData) :
    SessionState × FetchEvent :=
  let key := MONTH_KEYS.getD monthIdx ""
  match lookupCache st.cache key with
  | some d => (⟨st.cache, some d⟩, .cacheHit)
  | none =>
    match result with
    | some d => (⟨(key, d) :: st.cache, some d⟩, .fetchOk)
    | none => (st, .fetchFail)

/-- The session starts with an empty cache and no displayed data. -/
def initialState : SessionState := ⟨[], none⟩

/-- A sample dataset used to instantiate cache statements on concrete inputs. -/
def emptyClimate : ClimateData := ⟨[], [], [], [], []⟩

/-- Run a sequence of month requests, drawing each issued fetch's outcome from the
oracle `net` (indexed by the request number, so an outcome may vary over time),
and logging each request's key and fetch event. -/
def runFetches (net : ℕ → String → Option ClimateData) :
    SessionState → ℕ → List ℕ → List (String × FetchEvent)
  | _, _, [] => []
  | st, n, idx :: rest =>
    (MONTH_KEYS.getD idx "",
        (fetchMonth st idx (net n (MONTH_KEYS.getD idx ""))).2) ::
      runFetches net (fetchMonth st idx (net n (MONTH_KEYS.getD idx ""))).1 (n + 1) rest

/-- `txt.replace(/NaN/g, "null")` from the city fetch effect, on character lists:
the leftmost occurrence of `NaN` is rewritten to `null` and scanning resumes after
the replacement (JS global replace is non-overlapping, left to right). -/
def replaceNaN : List Char → List Char
  | [] => []
  | [c] => [c]
  | [c, d] => [c, d]
  | c :: d :: e :: rest =>
    if c = 'N' ∧ d = 'a' ∧ e = 'N' then 'n' :: 'u' :: 'l' :: 'l' :: replaceNaN rest
    else c :: replaceNaN (d :: e :: rest)

/-- Whether the text contains the literal token `NaN` anywhere. -/
def hasNaN : List Char → Bool
  | [] => false
  | c :: rest => (decide ((c :: rest).take 3 = ['N', 'a', 'N'])) || hasNaN rest

/-! ## Helper notions and lemmas -/

/-- `x` lies (inclusively) between `a` and `b`, in either order. -/
def betweenI (a b x : ℤ) : Prop := min a b ≤ x ∧ x ≤ max a b

/-- Channel-wise betweenness of a color relative to two endpoint colors. -/
def betweenColor (a b c : Color) : Prop :=
  betweenI a.1 b.1 c.1 ∧ betweenI a.2.1 b.2.1 c.2.1 ∧ betweenI a.2.2 b.2.2 c.2.2

/-- `x` is a convex combination of `a` and `b` (with a rational coefficient). -/
def convexI (a b x : ℤ) : Prop :=
  ∃ t : ℚ, 0 ≤ t ∧ t ≤ 1 ∧ (x : ℚ) = (a : ℚ) + ((b : ℚ) - (a : ℚ)) * t

/-- Channel-wise convex combination of a color relative to two endpoint colors. -/
def convexColor (a b c : Color) : Prop :=
  convexI a.1 b.1 c.1 ∧ convexI a.2.1 b.2.1 c.2.1 ∧ convexI a.2.2 b.2.2 c.2.2

/-- `a` and `b` occupy consecutive positions of the stop list `l`. -/
def Adj (l : List Stop) (a b : Stop) : Prop :=
  ∃ i, l[i]? = some a ∧ l[i + 1]? = some b

theorem Adj.cons {l : List Stop} {a b : Stop} (s : Stop) (h : Adj l a b) :
    Adj (s :: l) a b := by
  obtain ⟨i, h1, h2⟩ := h
  exact ⟨i + 1, by simpa using h1, by simpa using h2⟩

theorem adj_head (a b : Stop) (l : List Stop) : Adj (a :: b :: l) a b :=
  ⟨0, by simp, by simp⟩

theorem Adj.mem_left {l : List Stop} {a b : Stop} (h : Adj l a b) : a ∈ l :=
  List.getElem?_mem h.choose_spec.1

theorem Adj.mem_right {l : List Stop} {a b : Stop} (h : Adj l a b) : b ∈ l :=
  List.getElem?_mem h.choose_spec.2

theorem jsRound_between {m M : ℤ} {x : ℚ} (h1 : (m : ℚ) ≤ x) (h2 : x ≤ (M : ℚ)) :
    m ≤ jsRound x ∧ jsRound x ≤ M := by
  constructor
  · have : m = ⌊(m : ℚ) + 1/2⌋ := by rw [Int.floor_int_add]; norm_num
    rw [this, jsRound]
    exact Int.floor_le_floor (by linarith)
  · have : M = ⌊(M : ℚ) + 1/2⌋ := by rw [Int.floor_int_add]; norm_num
    rw [this, jsRound]
    exact Int.floor_le_floor (by linarith)

theorem lerpChannel_between (a b : ℤ) {t : ℚ} (h0 : 0 ≤ t) (h1 : t ≤ 1) :
    betweenI a b (jsRound ((a : ℚ) + ((b : ℚ) - (a : ℚ)) * t)) := by
  rcases le_total a b with hab | hab
  · have hab' : (a : ℚ) ≤ (b : ℚ) := by exact_mod_cast hab
    rw [betweenI, min_eq_left hab, max_eq_right hab]
    exact jsRound_between (by nlinarith) (by nlinarith)
  · have hab' : (b : ℚ) ≤ (a : ℚ) := by exact_mod_cast hab
    rw [betweenI, min_eq_right hab, max_eq_left hab]
    exact jsRound_between (by nlinarith) (by nlinarith)

theorem lerp_between (a b : Color) {t : ℚ} (h0 : 0 ≤ t) (h1 : t ≤ 1) :
    betweenColor a b (lerp a b t) :=
  ⟨lerpChannel_between _ _ h0 h1, lerpChannel_between _ _ h0 h1,
   lerpChannel_between _ _ h0 h1⟩

theorem betweenI_left (a b : ℤ) : betweenI a b a := ⟨min_le_left _ _, le_max_left _ _⟩

theorem betweenI_right (a b : ℤ) : betweenI a b b := ⟨min_le_right _ _, le_max_right _ _⟩

theorem betweenColor_left (a b : Color) : betweenColor a b a :=
  ⟨betweenI_left _ _, betweenI_left _ _, betweenI_left _ _⟩

theorem betweenColor_right (a b : Color) : betweenColor a b b :=
  ⟨betweenI_right _ _, betweenI_right _ _, betweenI_right _ _⟩

theorem betweenI_convex {a b x : ℤ} (h : betweenI a b x) : convexI a b x := by
  obtain ⟨hmin, hmax⟩ := h
  by_cases hab : a = b
  · subst hab
    rw [min_self] at hmin
    rw [max_self] at hmax
    have hx : x = a := le_antisymm hmax hmin
    exact ⟨0, le_rfl, zero_le_one, by rw [hx]; ring⟩
  · have hba : ((b : ℚ) - (a : ℚ)) ≠ 0 := by
      rw [sub_ne_zero]
      exact_mod_cast Ne.symm hab
    refine ⟨((x : ℚ) - (a : ℚ)) / ((b : ℚ) - (a : ℚ)), ?_, ?_, ?_⟩
    · rcases lt_or_gt_of_ne hab with h' | h'
      · have ha : a ≤ x := by rwa [min_eq_left h'.le] at hmin
        exact div_nonneg (by exact_mod_cast sub_nonneg.2 ha)
          (by exact_mod_cast sub_nonneg.2 h'.le)
      · have hb : b ≤ x := by rwa [min_eq_right h'.le] at hmin
        have hxa : x ≤ a := by rwa [max_eq_left h'.le] at hmax
        have hnum : (x : ℚ) - (a : ℚ) ≤ 0 := by exact_mod_cast sub_nonpos.2 hxa
        have hden : (b : ℚ) - (a : ℚ) < 0 := by exact_mod_cast sub_neg.2 h'
        rw [← neg_div_neg_eq]
        exact div_nonneg (by linarith) (by linarith)
    · rcases lt_or_gt_of_ne hab with h' | h'
      · have hb : x ≤ b := by rwa [max_eq_right h'.le] at hmax
        rw [div_le_one (by exact_mod_cast sub_pos.2 h')]
        have : (x : ℚ) ≤ (b : ℚ) := by exact_mod_cast hb
        linarith
      · have hb : b ≤ x := by rwa [min_eq_right h'.le] at hmin
        have hden : (b : ℚ) - (a : ℚ) < 0 := by exact_mod_cast sub_neg.2 h'
        rw [div_le_iff_of_neg hden]
        have : (b : ℚ) ≤ (x : ℚ) := by exact_mod_cast hb
        linarith
    · field_simp

theorem betweenColor_convex {a b c : Color} (h : betweenColor a b c) :
    convexColor a b c :=
  ⟨betweenI_convex h.1, betweenI_convex h.2.1, betweenI_convex h.2.2⟩

theorem findSeg_spec :
    ∀ (rest : List Stop) (s0 : Stop), rest ≠ [] →
      List.Chain' (fun a b => a.«at» < b.«at») (s0 :: rest) →
      ∀ {ratio : ℚ}, s0.«at» < ratio → ratio ≤ (rest.getLastD s0).«at» →
      ∃ a b c, Adj (s0 :: rest) a b ∧ a.«at» < ratio ∧ ratio ≤ b.«at» ∧
        findSeg ratio s0 rest = some c ∧ betweenColor a.color b.color c := by
  intro rest
  induction rest with
  | nil => intro s0 h; exact absurd rfl h
  | cons s1 rest' ih =>
    intro s0 _ hchain ratio h0 h1
    rw [List.chain'_cons] at hchain
    by_cases hle : ratio ≤ s1.«at»
    · have hden : 0 < s1.«at» - s0.«at» := sub_pos.2 hchain.1
      have ht0 : 0 ≤ (ratio - s0.«at») / (s1.«at» - s0.«at») :=
        div_nonneg (by linarith) hden.le
      have ht1 : (ratio - s0.«at») / (s1.«at» - s0.«at») ≤ 1 := by
        rw [div_le_one hden]; linarith
      exact ⟨s0, s1, _, adj_head _ _ _, h0, hle, by simp [findSeg, hle],
        lerp_between _ _ ht0 ht1⟩
    · have hne' : rest' ≠ [] := by
        rintro rfl
        simp only [List.getLastD_cons, List.getLastD_nil] at h1
        exact hle h1
      have h1' : ratio ≤ (rest'.getLastD s1).«at» := by
        rwa [List.getLastD_cons] at h1
      obtain ⟨a, b, c, hadj, ha, hb, hfind, hbet⟩ :=
        ih s1 hne' hchain.2 (lt_of_not_le hle) h1'
      exact ⟨a, b, c, hadj.cons s0, ha, hb, by simp [findSeg, hle, hfind], hbet⟩

theorem exists_adjLast :
    ∀ (rest : List Stop) (s0 : Stop), rest ≠ [] →
      List.Chain' (fun a b => a.«at» < b.«at») (s0 :: rest) →
      ∃ a, Adj (s0 :: rest) a (rest.getLastD s0) ∧
        a.«at» < (rest.getLastD s0).«at» := by
  intro rest
  induction rest with
  | nil => intro s0 h; exact absurd rfl h
  | cons s1 rest' ih =>
    intro s0 _ hchain
    rw [List.chain'_cons] at hchain
    rcases eq_or_ne rest' [] with rfl | hne'
    · simp only [List.getLastD_cons, List.getLastD_nil]
      exact ⟨s0, adj_head _ _ _, hchain.1⟩
    · obtain ⟨a, hadj, hlt⟩ := ih s1 hne' hchain.2
      rw [List.getLastD_cons]
      exact ⟨a, hadj.cons s0, hlt⟩

theorem multiStop_spec (s0 : Stop) (rest : List Stop) (hne : rest ≠ [])
    (hchain : List.Chain' (fun a b => a.«at» < b.«at») (s0 :: rest))
    {ratio : ℚ} (h0 : s0.«at» ≤ ratio) (h1 : ratio ≤ (rest.getLastD s0).«at») :
    ∃ a b, Adj (s0 :: rest) a b ∧ a.«at» ≤ ratio ∧ ratio ≤ b.«at» ∧
      betweenColor a.color b.color (multiStopColor ratio (s0 :: rest)) := by
  obtain ⟨s1, rest', rfl⟩ : ∃ s1 rest', rest = s1 :: rest' := by
    cases rest with
    | nil => exact absurd rfl hne
    | cons s1 rest' => exact ⟨s1, rest', rfl⟩
  by_cases hle0 : ratio ≤ s0.«at»
  · have hres : multiStopColor ratio (s0 :: s1 :: rest') = s0.color := by
      simp [multiStopColor, hle0]
    have hchain1 : s0.«at» < s1.«at» := (List.chain'_cons.1 hchain).1
    exact ⟨s0, s1, adj_head _ _ _, h0, le_of_lt (lt_of_le_of_lt hle0 hchain1),
      hres ▸ betweenColor_left _ _⟩
  · by_cases hlast : ((s1 :: rest').getLastD s0).«at» ≤ ratio
    · have hres : multiStopColor ratio (s0 :: s1 :: rest') =
          ((s1 :: rest').getLastD s0).color := by
        simp only [multiStopColor]
        rw [if_neg hle0, if_pos hlast]
      obtain ⟨a, hadj, hlt⟩ := exists_adjLast (s1 :: rest') s0 (by simp) hchain
      exact ⟨a, (s1 :: rest').getLastD s0, hadj,
        le_of_lt (lt_of_lt_of_le hlt hlast), h1, hres ▸ betweenColor_right _ _⟩
    · obtain ⟨a, b, c, hadj, ha, hb, hfind, hbet⟩ :=
        findSeg_spec (s1 :: rest') s0 (by simp) hchain (lt_of_not_le hle0) h1
      have hres : multiStopColor ratio (s0 :: s1 :: rest') = c := by
        simp only [multiStopColor]
        rw [if_neg hle0, if_neg hlast, hfind]
        rfl
      exact ⟨a, b, hadj, ha.le, hb, hres ▸ hbet⟩

theorem multiStop_first (s0 : Stop) (rest : List Stop) {ratio : ℚ}
    (h : ratio ≤ s0.«at») : multiStopColor ratio (s0 :: rest) = s0.color := by
  simp [multiStopColor, h]

theorem multiStop_last (s0 : Stop) (rest : List Stop) {ratio : ℚ}
    (h1 : s0.«at» < ratio) (h2 : (rest.getLastD s0).«at» ≤ ratio) :
    multiStopColor ratio (s0 :: rest) = (rest.getLastD s0).color := by
  simp only [multiStopColor]
  rw [if_neg (not_le.2 h1), if_pos h2]

theorem clampedRatio_nonneg (v mn mx : ℚ) : 0 ≤ clampedRatio v mn mx := by
  rw [clampedRatio]
  split
  · norm_num
  · exact le_max_left _ _

theorem clampedRatio_le_one (v mn mx : ℚ) : clampedRatio v mn mx ≤ 1 := by
  rw [clampedRatio]
  split
  · norm_num
  · exact max_le zero_le_one (min_le_left _ _)

theorem clampedRatio_of_lt_min {v mn mx : ℚ} (hlt : mn < mx) (hv : v < mn) :
    clampedRatio v mn mx = 0 := by
  have hrange : mx - mn ≠ 0 := ne_of_gt (sub_pos.2 hlt)
  have hneg : (v - mn) / (mx - mn) < 0 :=
    div_neg_of_neg_of_pos (sub_neg.2 hv) (sub_pos.2 hlt)
  rw [clampedRatio]
  simp only [hrange, if_false]
  rw [min_eq_right (by linarith), max_eq_left (by linarith)]

theorem clampedRatio_of_max_lt {v mn mx : ℚ} (hlt : mn < mx) (hv : mx < v) :
    clampedRatio v mn mx = 1 := by
  have hrange : mx - mn ≠ 0 := ne_of_gt (sub_pos.2 hlt)
  have hgt : 1 < (v - mn) / (mx - mn) := (one_lt_div (sub_pos.2 hlt)).2 (by linarith)
  rw [clampedRatio]
  simp only [hrange, if_false]
  rw [min_eq_left hgt.le, max_eq_right zero_le_one]

theorem clampedRatio_at_max {mn mx : ℚ} (hlt : mn < mx) :
    clampedRatio mx mn mx = 1 := by
  have hrange : mx - mn ≠ 0 := ne_of_gt (sub_pos.2 hlt)
  rw [clampedRatio]
  simp only [hrange, if_false]
  rw [div_self hrange, min_self, max_eq_right zero_le_one]

theorem clampedRatio_degenerate (v mn : ℚ) : clampedRatio v mn mn = 1/2 := by
  simp [clampedRatio]

/-- Every configured stop table is a nonempty, strictly position-sorted list whose
first stop sits at ratio 0 and last stop at ratio 1. -/
theorem stopTable_facts (vr : Variable) :
    ∃ s0 rest, STOP_MAP vr = s0 :: rest ∧ rest ≠ [] ∧
      List.Chain' (fun a b => a.«at» < b.«at») (s0 :: rest) ∧
      s0.«at» = 0 ∧ (rest.getLastD s0).«at» = 1 := by
  cases vr
  · exact ⟨_, _, rfl, by simp,
      by norm_num [TEMP_STOPS, List.chain'_cons], rfl, rfl⟩
  · exact ⟨_, _, rfl, by simp,
      by norm_num [PRECIP_STOPS, List.chain'_cons], rfl, rfl⟩
  · exact ⟨_, _, rfl, by simp,
      by norm_num [SUN_STOPS, List.chain'_cons], rfl, rfl⟩

/-- C1: for a nondegenerate configured domain, every in-domain value's `getColor`
result is a per-channel convex combination of two adjacent configured stops
bracketing the normalized ratio; a value below the domain yields exactly the first
stop's color and a value above it exactly the last stop's color. -/
theorem C1_colorFor_convex (vr : Variable) (v mn mx : ℚ) (hlt : mn < mx) :
    (mn ≤ v → v ≤ mx →
      ∃ a b, Adj (STOP_MAP vr) a b ∧
        a.«at» ≤ clampedRatio v mn mx ∧ clampedRatio v mn mx ≤ b.«at» ∧
        convexColor a.color b.color (getColor vr v mn mx).1) ∧
    (v < mn → (getColor vr v mn mx).1 = ((STOP_MAP vr).headD ⟨0, (0, 0, 0)⟩).color) ∧
    (mx < v → (getColor vr v mn mx).1 = ((STOP_MAP vr).getLastD ⟨0, (0, 0, 0)⟩).color) := by
  obtain ⟨s0, rest, hmap, hne, hchain, hfirst, hlastat⟩ := stopTable_facts vr
  refine ⟨fun _ _ => ?_, fun hv => ?_, fun hv => ?_⟩
  · have h0 : s0.«at» ≤ clampedRatio v mn mx := by
      rw [hfirst]; exact clampedRatio_nonneg _ _ _
    have h1 : clampedRatio v mn mx ≤ (rest.getLastD s0).«at» := by
      rw [hlastat]; exact clampedRatio_le_one _ _ _
    obtain ⟨a, b, hadj, ha, hb, hbet⟩ := multiStop_spec s0 rest hne hchain h0 h1
    rw [getColor, hmap]
    exact ⟨a, b, hadj, ha, hb, betweenColor_convex hbet⟩
  · rw [getColor, hmap, clampedRatio_of_lt_min hlt hv]
    rw [multiStop_first s0 rest (by rw [hfirst])]
    rfl
  · rw [getColor, hmap, clampedRatio_of_max_lt hlt hv]
    rw [multiStop_last s0 rest (by rw [hfirst]; norm_num) (by rw [hlastat])]
    rw [List.getLastD_cons]

theorem C1_colorFor_convex_witness :
    (getColor .temperature (-20) (-15) 35).1 =
      ((STOP_MAP .temperature).headD ⟨0, (0, 0, 0)⟩).color :=
  (C1_colorFor_convex .temperature (-20) (-15) 35 (by norm_num)).2.1 (by norm_num)

/-- C3: with a degenerate domain the normalized ratio is defined to be 1/2 in both
color paths (no division occurs), so `getColor` and `bubbleColor` both return the
gradient's midpoint color — for the bubble gradient, the yellow stop (255,200,0). -/
theorem C3_degenerate_midpoint (vr : Variable) (v mn : ℚ) (invert : Bool) :
    getColor vr v mn mn = (multiStopColor (1/2) (STOP_MAP vr), 179) ∧
    bubbleColor (some v) mn mn invert = (multiStopColor (1/2) GREEN_RED_STOPS, 220) ∧
    multiStopColor (1/2) GREEN_RED_STOPS = (255, 200, 0) := by
  refine ⟨?_, ?_, ?_⟩
  · rw [getColor, clampedRatio_degenerate]
  · simp only [bubbleColor]
    rw [clampedRatio_degenerate]
    cases invert <;> norm_num
  · norm_num [multiStopColor, GREEN_RED_STOPS, findSeg, lerp, jsRound]

/-- C6: with the inversion flag set, `bubbleColor` reflects the clamped ratio to
`1 - ratio` before the gradient lookup; hence for a nondegenerate domain the value
at `domainMax` maps to the green "good" endpoint, not the red "bad" one. -/
theorem C6_invert_reflection (mn mx : ℚ) (hlt : mn < mx) :
    (∀ w : ℚ, bubbleColor (some w) mn mx true =
        (multiStopColor (1 - clampedRatio w mn mx) GREEN_RED_STOPS, 220)) ∧
    bubbleColor (some mx) mn mx true = ((34, 139, 34), 220) ∧
    bubbleColor (some mx) mn mx true ≠ ((200, 30, 30), 220) := by
  have hrefl : ∀ w : ℚ, bubbleColor (some w) mn mx true =
      (multiStopColor (1 - clampedRatio w mn mx) GREEN_RED_STOPS, 220) := by
    intro w; simp [bubbleColor]
  have hgreen : bubbleColor (some mx) mn mx true = ((34, 139, 34), 220) := by
    rw [hrefl, clampedRatio_at_max hlt]
    norm_num [multiStopColor, GREEN_RED_STOPS]
  refine ⟨hrefl, hgreen, ?_⟩
  rw [hgreen]
  decide

theorem C6_invert_reflection_witness :
    bubbleColor (some 1) 0 1 true = ((34, 139, 34), 220) :=
  (C6_invert_reflection 0 1 (by norm_num)).2.1

/-- C7: a missing bubble value yields the fixed neutral gray (160,160,160) with
bubble alpha, and no ratio in [0,1] can make the green→yellow→red gradient produce
that gray (every gradient output has blue channel at most 34). -/
theorem C7_missing_gray (mn mx : ℚ) (invert : Bool) :
    bubbleColor none mn mx invert = ((160, 160, 160), 220) ∧
    ∀ ratio : ℚ, 0 ≤ ratio → ratio ≤ 1 →
      multiStopColor ratio GREEN_RED_STOPS ≠ (160, 160, 160) := by
  refine ⟨rfl, fun ratio h0 h1 hcontra => ?_⟩
  have hG : GREEN_RED_STOPS =
      (⟨0, (34, 139, 34)⟩ : Stop) :: [⟨1/2, (255, 200, 0)⟩, ⟨1, (200, 30, 30)⟩] := rfl
  have hchain : List.Chain' (fun a b : Stop => a.«at» < b.«at») GREEN_RED_STOPS := by
    norm_num [GREEN_RED_STOPS, List.chain'_cons]
  rw [hG] at hchain
  obtain ⟨a, b, hadj, -, -, hbet⟩ :=
    multiStop_spec (⟨0, (34, 139, 34)⟩ : Stop)
      [⟨1/2, (255, 200, 0)⟩, ⟨1, (200, 30, 30)⟩] (by simp) hchain
      (by simpa using h0) (by simpa using h1)
  rw [← hG, hcontra] at hbet
  have hblue : ∀ s ∈ GREEN_RED_STOPS, s.color.2.2 ≤ 34 := by
    intro s hs
    simp [GREEN_RED_STOPS] at hs
    rcases hs with rfl | rfl | rfl <;> norm_num
  have ha34 := hblue a (by rw [hG]; exact hadj.mem_left)
  have hb34 := hblue b (by rw [hG]; exact hadj.mem_right)
  have h160 : ((160, 160, 160) : Color).2.2 = 160 := rfl
  have hle := hbet.2.2.2
  rw [h160] at hle
  have : max a.color.2.2 b.color.2.2 ≤ 34 := max_le ha34 hb34
  omega

theorem C7_missing_gray_witness :
    bubbleColor none 0 1 false = ((160, 160, 160), 220) ∧
    multiStopColor (1/2) GREEN_RED_STOPS ≠ (160, 160, 160) :=
  ⟨(C7_missing_gray 0 1 false).1,
   (C7_missing_gray 0 1 false).2 (1/2) (by norm_num) (by norm_num)⟩

theorem countP_flatMap {α β : Type} (p : β → Bool) (l : List α) (f : α → List β) :
    ((l.flatMap f).countP p) = (l.map fun a => (f a).countP p).sum := by
  induction l with
  | nil => simp
  | cons a t ih => simp [List.flatMap_cons, List.countP_append, ih]

theorem countP_filterMap {α β : Type} (p : β → Bool) (f : α → Option β) (l : List α) :
    ((l.filterMap f).countP p) = l.countP (fun a => ((f a).map p).getD false) := by
  induction l with
  | nil => simp
  | cons a t ih =>
    cases hfa : f a <;>
      simp [List.filterMap_cons, hfa, List.countP_cons, ih]

theorem sum_map_range_single (n i : ℕ) (g : ℕ → ℕ) (hi : i < n)
    (h0 : ∀ k, k ≠ i → g k = 0) : ((List.range n).map g).sum = g i := by
  induction n with
  | zero => omega
  | succ n ih =>
    rw [List.range_succ, List.map_append, List.sum_append]
    rcases Nat.lt_succ_iff_lt_or_eq.1 hi with h | rfl
    · rw [ih h]
      simp [h0 n (by omega)]
    · have hz : ((List.range i).map g).sum = 0 := by
        apply List.sum_eq_zero
        intro x hx
        obtain ⟨k, hk, rfl⟩ := List.mem_map.1 hx
        exact h0 k (by simp at hk; omega)
      rw [hz]
      simp

theorem countP_range_single (n j : ℕ) (q : ℕ → Bool) :
    ((List.range n).countP fun k => (k == j) && q k) =
      if j < n ∧ q j then 1 else 0 := by
  induction n with
  | zero => simp
  | succ n ih =>
    rw [List.range_succ, List.countP_append, ih]
    by_cases hj : j = n
    · subst hj
      by_cases hq : q j <;> simp [List.countP_cons, hq]
    · have hne : (n == j) = false := by
        simp [Ne.symm hj]
      have hiff : (j < n ∧ q j = true) ↔ (j < n + 1 ∧ q j = true) := by
        constructor <;> rintro ⟨h1, h2⟩ <;> exact ⟨by omega, h2⟩
      simp [List.countP_cons, hne, hiff]

theorem mem_buildCells {lats lons : List ℚ} {grid : List (List (Option ℚ))} {c : Cell} :
    c ∈ buildCells lats lons grid ↔
      ∃ i j v, i < lats.length ∧ j < lons.length ∧ valueAt grid i j = some v ∧
        mkCell lats lons i j v = c := by
  simp only [buildCells, List.mem_flatMap, List.mem_filterMap, List.mem_range,
    Option.map_eq_some']
  constructor
  · rintro ⟨i, hi, j, hj, v, hv, rfl⟩
    exact ⟨i, j, v, hi, hj, hv, rfl⟩
  · rintro ⟨i, j, v, hi, hj, hv, rfl⟩
    exact ⟨i, hi, j, hj, v, hv, rfl⟩

theorem countP_buildCells (lats lons : List ℚ) (grid : List (List (Option ℚ)))
    (i j : ℕ) (hi : i < lats.length) :
    (buildCells lats lons grid).countP (fun c => c.i == i && c.j == j) =
      if j < lons.length ∧ (valueAt grid i j).isSome then 1 else 0 := by
  rw [buildCells, countP_flatMap]
  rw [sum_map_range_single _ i _ hi]
  · rw [countP_filterMap]
    rw [List.countP_congr (q := fun k => (k == j) && (valueAt grid i k).isSome)]
    · rw [countP_range_single]
    · intro k _
      cases hk : valueAt grid i k <;> simp [hk, mkCell]
  · intro k hk
    rw [countP_filterMap]
    rw [List.countP_eq_zero.2]
    intro x hx
    cases hx2 : valueAt grid k x <;> simp [hx2, mkCell, hk]

/-- C2: the cell assembler emits exactly one cell per grid position with a present
value and none for a missing position; each emitted cell records a present value of
the grid at its own indices.  On the example grid `lats=[50,51]`, `lons=[10,11]`,
`temperature=[[5,null],[10,15]]` it emits exactly the three cells with indices
`(0,0)`, `(1,0)`, `(1,1)` and values 5, 10, 15. -/
theorem C2_buildCells_presence :
    (∀ lats lons grid, ∀ c ∈ buildCells lats lons grid,
        c.i < lats.length ∧ c.j < lons.length ∧ valueAt grid c.i c.j = some c.value) ∧
    (∀ lats lons grid i j, i < lats.length → j < lons.length →
        (buildCells lats lons grid).countP (fun c => c.i == i && c.j == j) =
          if (valueAt grid i j).isSome then 1 else 0) ∧
    ((buildCells [50, 51] [10, 11] [[some 5, none], [some 10, some 15]]).map
        (fun c => (c.i, c.j, c.value)) = [(0, 0, (5 : ℚ)), (1, 0, 10), (1, 1, 15)]) := by
  refine ⟨?_, ?_, by decide⟩
  · intro lats lons grid c hc
    obtain ⟨i, j, v, hi, hj, hv, rfl⟩ := mem_buildCells.1 hc
    exact ⟨by simpa [mkCell] using hi, by simpa [mkCell] using hj,
      by simpa [mkCell] using hv⟩
  · intro lats lons grid i j hi hj
    rw [countP_buildCells lats lons grid i j hi]
    simp [hj]

theorem C2_buildCells_presence_witness :
    (buildCells [50, 51] [10, 11] [[some 5, none], [some 10, some 15]]).countP
        (fun c => c.i == 0 && c.j == 1) = 0 := by
  have h := C2_buildCells_presence.2.1 [50, 51] [10, 11]
    [[some 5, none], [some 10, some 15]] 0 1 (by norm_num) (by norm_num)
  rw [show valueAt [[some 5, none], [some 10, some 15]] 0 1 = none from rfl] at h
  simpa using h

/-- C8: the cell half-width is 0.105°, strictly less than half the 0.25° nominal
grid spacing; every emitted cell's polygon is the axis-aligned square of half-width
`HALF` centered on its grid point (so all vertices lie within `HALF` of the center
on each axis), and centers at least 0.25° apart give non-touching cells. -/
theorem C8_cell_geometry :
    HALF = 21/200 ∧
    HALF < (1/4) / 2 ∧
    (∀ lats lons grid c, c ∈ buildCells lats lons grid →
        c.polygon = [(lons.getD c.j 0 - HALF, lats.getD c.i 0 - HALF),
                     (lons.getD c.j 0 + HALF, lats.getD c.i 0 - HALF),
                     (lons.getD c.j 0 + HALF, lats.getD c.i 0 + HALF),
                     (lons.getD c.j 0 - HALF, lats.getD c.i 0 + HALF)] ∧
        ∀ p ∈ c.polygon, |p.1 - lons.getD c.j 0| ≤ HALF ∧ |p.2 - lats.getD c.i 0| ≤ HALF) ∧
    (∀ x y : ℚ, x + 1/4 ≤ y → x + HALF < y - HALF) := by
  have hhalf : HALF = 21/200 := by norm_num [HALF, CELL_SIZE]
  have habs : ∀ z : ℚ, |z - HALF - z| ≤ HALF ∧ |z + HALF - z| ≤ HALF := by
    intro z
    constructor
    · have : z - HALF - z = -HALF := by ring
      rw [this, abs_neg, abs_of_nonneg (by rw [hhalf]; norm_num)]
    · have : z + HALF - z = HALF := by ring
      rw [this, abs_of_nonneg (by rw [hhalf]; norm_num)]
  refine ⟨hhalf, by rw [hhalf]; norm_num, ?_, ?_⟩
  · intro lats lons grid c hc
    obtain ⟨i, j, v, hi, hj, hv, rfl⟩ := mem_buildCells.1 hc
    refine ⟨by simp [mkCell], ?_⟩
    intro p hp
    simp only [mkCell] at hp ⊢
    simp only [List.mem_cons, List.not_mem_nil, or_false] at hp
    rcases hp with rfl | rfl | rfl | rfl
    · exact ⟨(habs _).1, (habs _).1⟩
    · exact ⟨(habs _).2, (habs _).1⟩
    · exact ⟨(habs _).2, (habs _).2⟩
    · exact ⟨(habs _).1, (habs _).2⟩
  · intro x y h
    rw [hhalf]
    linarith

theorem C8_cell_geometry_witness : (0 : ℚ) + HALF < 1/4 - HALF :=
  C8_cell_geometry.2.2.2 0 (1/4) (by norm_num)

theorem foldl_min_mem (v : ℚ) (l : List ℚ) : l.foldl min v ∈ v :: l := by
  induction l generalizing v with
  | nil => simp
  | cons a t ih =>
    have h := ih (min v a)
    simp only [List.foldl_cons]
    rcases List.mem_cons.1 h with h' | h'
    · rw [h']
      rcases min_choice v a with hm | hm <;> rw [hm] <;> simp
    · simp [h']

theorem foldl_max_mem (v : ℚ) (l : List ℚ) : l.foldl max v ∈ v :: l := by
  induction l generalizing v with
  | nil => simp
  | cons a t ih =>
    have h := ih (max v a)
    simp only [List.foldl_cons]
    rcases List.mem_cons.1 h with h' | h'
    · rw [h']
      rcases max_choice v a with hm | hm <;> rw [hm] <;> simp
    · simp [h']

theorem le_foldl_max (v : ℚ) (l : List ℚ) : ∀ x ∈ v :: l, x ≤ l.foldl max v := by
  induction l generalizing v with
  | nil => intro x hx; simp at hx; simp [hx]
  | cons a t ih =>
    intro x hx
    rcases List.mem_cons.1 hx with rfl | hx'
    · exact le_trans (le_max_left x a) (ih (max x a) _ (List.mem_cons_self _ _))
    · rcases List.mem_cons.1 hx' with rfl | hx''
      · exact le_trans (le_max_right v x) (ih (max v x) _ (List.mem_cons_self _ _))
      · exact ih (max v a) x (List.mem_cons_of_mem _ hx'')

theorem foldl_min_le (v : ℚ) (l : List ℚ) : ∀ x ∈ v :: l, l.foldl min v ≤ x := by
  induction l generalizing v with
  | nil => intro x hx; simp at hx; simp [hx]
  | cons a t ih =>
    intro x hx
    rcases List.mem_cons.1 hx with rfl | hx'
    · exact le_trans (ih (min x a) _ (List.mem_cons_self _ _)) (min_le_left x a)
    · rcases List.mem_cons.1 hx' with rfl | hx''
      · exact le_trans (ih (min v x) _ (List.mem_cons_self _ _)) (min_le_right v x)
      · exact ih (min v a) x (List.mem_cons_of_mem _ hx'')

theorem rangeFor_eq_of_vals {records : List City} {acc : City → Option ℚ}
    {prev : ℚ × ℚ} {v : ℚ} {vs : List ℚ}
    (h : (records.map acc).reduceOption = v :: vs) :
    rangeFor records acc prev = (vs.foldl min v, vs.foldl max v) := by
  rw [rangeFor, h]

theorem rangeFor_eq_prev {records : List City} {acc : City → Option ℚ}
    {prev : ℚ × ℚ} (h : (records.map acc).reduceOption = []) :
    rangeFor records acc prev = prev := by
  rw [rangeFor, h]

theorem reduceOption_eq_nil_of_all_none {l : List (Option ℚ)}
    (h : ∀ x ∈ l, x = none) : l.reduceOption = [] := by
  induction l with
  | nil => rfl
  | cons a t ih =>
    have ha := h a (List.mem_cons_self _ _)
    subst ha
    rw [List.reduceOption_cons_of_none]
    exact ih fun x hx => h x (List.mem_cons_of_mem _ hx)

theorem rangeFor_min_le_max (records : List City) (acc : City → Option ℚ)
    (prev : ℚ × ℚ) (hprev : prev.1 ≤ prev.2) :
    (rangeFor records acc prev).1 ≤ (rangeFor records acc prev).2 := by
  cases hvals : (records.map acc).reduceOption with
  | nil => rw [rangeFor_eq_prev hvals]; exact hprev
  | cons v vs =>
    rw [rangeFor_eq_of_vals hvals]
    exact le_trans (foldl_min_le v vs _ (List.mem_cons_self _ _))
      (le_foldl_max v vs _ (List.mem_cons_self _ _))

theorem mem_vals_iff {records : List City} {acc : City → Option ℚ} {x : ℚ} :
    x ∈ (records.map acc).reduceOption ↔ ∃ c ∈ records, acc c = some x := by
  rw [List.reduceOption_mem_iff]
  constructor
  · intro h
    obtain ⟨c, hc, hacc⟩ := List.mem_map.1 h
    exact ⟨c, hc, hacc⟩
  · rintro ⟨c, hc, hacc⟩
    exact List.mem_map.2 ⟨c, hc, hacc⟩

/-- C5: over a record list in which the selected metric has at least one present
value, the range reducer returns a pair with min at most max, both of which are
present accessor outputs of records in the input. -/
theorem C5_rangeFor_minmax (m : BubbleMetric) (cities : List City) (prev : ℚ × ℚ)
    (h : ∃ c ∈ cities, m.getValue c ≠ none) :
    (rangeFor cities m.getValue prev).1 ≤ (rangeFor cities m.getValue prev).2 ∧
    (∃ c ∈ cities, m.getValue c = some (rangeFor cities m.getValue prev).1) ∧
    (∃ c ∈ cities, m.getValue c = some (rangeFor cities m.getValue prev).2) := by
  obtain ⟨c0, hc0, hval⟩ := h
  obtain ⟨w, hw⟩ := Option.ne_none_iff_exists'.1 hval
  have hmem : w ∈ (cities.map m.getValue).reduceOption :=
    mem_vals_iff.2 ⟨c0, hc0, hw⟩
  cases hvals : (cities.map m.getValue).reduceOption with
  | nil => rw [hvals] at hmem; exact absurd hmem (List.not_mem_nil _)
  | cons v vs =>
    rw [rangeFor_eq_of_vals hvals]
    have hminmem : vs.foldl min v ∈ (cities.map m.getValue).reduceOption := by
      rw [hvals]; exact foldl_min_mem v vs
    have hmaxmem : vs.foldl max v ∈ (cities.map m.getValue).reduceOption := by
      rw [hvals]; exact foldl_max_mem v vs
    refine ⟨?_, mem_vals_iff.1 hminmem, mem_vals_iff.1 hmaxmem⟩
    exact le_trans (foldl_min_le v vs _ (List.mem_cons_self _ _))
      (le_foldl_max v vs _ (List.mem_cons_self _ _))

theorem C5_rangeFor_minmax_witness :
    (rangeFor [⟨some 50, none, none, none, none⟩, ⟨some 30, none, none, none, none⟩]
        BubbleMetric.resilience_score.getValue (0, 1)).1 ≤
      (rangeFor [⟨some 50, none, none, none, none⟩, ⟨some 30, none, none, none, none⟩]
        BubbleMetric.resilience_score.getValue (0, 1)).2 :=
  (C5_rangeFor_minmax .resilience_score
    [⟨some 50, none, none, none, none⟩, ⟨some 30, none, none, none, none⟩] (0, 1)
    ⟨⟨some 50, none, none, none, none⟩, by decide, by decide⟩).1

/-- C10: the bubble range state starts at (0, 1), is left unchanged by an update in
which the selected metric has no present value, keeps min at most max across any
single update, and hence satisfies min at most max after any session-long sequence
of updates. -/
theorem C10_bubbleRange_invariant :
    bubbleRangeInit = (0, 1) ∧
    (∀ m : BubbleMetric, ∀ cities : List City, ∀ prev : ℚ × ℚ,
        (∀ c ∈ cities, m.getValue c = none) →
        rangeFor cities m.getValue prev = prev) ∧
    (∀ m : BubbleMetric, ∀ cities : List City, ∀ prev : ℚ × ℚ, prev.1 ≤ prev.2 →
        (rangeFor cities m.getValue prev).1 ≤ (rangeFor cities m.getValue prev).2) ∧
    (∀ updates : List (BubbleMetric × List City),
        (runUpdates updates).1 ≤ (runUpdates updates).2) := by
  refine ⟨rfl, ?_, ?_, ?_⟩
  · intro m cities prev hnone
    apply rangeFor_eq_prev
    apply reduceOption_eq_nil_of_all_none
    intro x hx
    obtain ⟨c, hc, rfl⟩ := List.mem_map.1 hx
    exact hnone c hc
  · intro m cities prev hprev
    exact rangeFor_min_le_max cities m.getValue prev hprev
  · intro updates
    rw [runUpdates]
    have : ∀ (us : List (BubbleMetric × List City)) (st : ℚ × ℚ), st.1 ≤ st.2 →
        (us.foldl (fun st u => rangeFor u.2 u.1.getValue st) st).1 ≤
          (us.foldl (fun st u => rangeFor u.2 u.1.getValue st) st).2 := by
      intro us
      induction us with
      | nil => intro st h; exact h
      | cons u rest ih =>
        intro st h
        exact ih _ (rangeFor_min_le_max u.2 u.1.getValue st h)
    exact this updates bubbleRangeInit (by norm_num [bubbleRangeInit])

theorem C10_bubbleRange_invariant_witness :
    rangeFor [] BubbleMetric.delta_temp_c.getValue (0, 1) = (0, 1) :=
  C10_bubbleRange_invariant.2.1 .delta_temp_c [] (0, 1) (by simp)

theorem lookupCache_insert_ne (cache : List (String × ClimateData)) (k key : String)
    (d : ClimateData) (h : (k == key) = false) :
    lookupCache ((k, d) :: cache) key = lookupCache cache key := by
  rw [lookupCache, lookupCache, List.find?_cons_of_neg _ (by simpa using h)]

theorem lookupCache_insert_self (cache : List (String × ClimateData)) (key : String)
    (d : ClimateData) : lookupCache ((key, d) :: cache) key = some d := by
  rw [lookupCache, List.find?_cons_of_pos _ (by simp)]


theorem fetchMonth_eq_hit (st : SessionState) (idx : ℕ) (r : Option ClimateData)
    (d : ClimateData)
    (hlook : lookupCache st.cache (MONTH_KEYS.getD idx "") = some d) :
    fetchMonth st idx r = (⟨st.cache, some d⟩, FetchEvent.cacheHit) := by
  rw [fetchMonth.eq_def]
  simp only [hlook]

theorem fetchMonth_eq_ok (st : SessionState) (idx : ℕ) (d : ClimateData)
    (hlook : lookupCache st.cache (MONTH_KEYS.getD idx "") = none) :
    fetchMonth st idx (some d) =
      (⟨(MONTH_KEYS.getD idx "", d) :: st.cache, some d⟩, FetchEvent.fetchOk) := by
  rw [fetchMonth.eq_def]
  simp only [hlook]

theorem fetchMonth_eq_fail (st : SessionState) (idx : ℕ)
    (hlook : lookupCache st.cache (MONTH_KEYS.getD idx "") = none) :
    fetchMonth st idx none = (st, FetchEvent.fetchFail) := by
  rw [fetchMonth.eq_def]
  simp only [hlook]

theorem runFetches_cached_ok (net : ℕ → String → Option ClimateData) (key : String) :
    ∀ (requests : List ℕ) (st : SessionState) (n : ℕ),
      (lookupCache st.cache key).isSome →
      ((runFetches net st n requests).countP
        (fun e => e.1 == key && e.2 == FetchEvent.fetchOk)) = 0 := by
  intro requests
  induction requests with
  | nil => intro st n _; rfl
  | cons idx rest ih =>
    intro st n hsome
    rw [runFetches]
    cases hlook : lookupCache st.cache (MONTH_KEYS.getD idx "") with
    | some d =>
      rw [fetchMonth_eq_hit st idx _ d hlook, List.countP_cons]
      rw [ih ⟨st.cache, some d⟩ (n + 1) hsome]
      simp
    | none =>
      have hne : ¬ (MONTH_KEYS.getD idx "" = key) := by
        intro hEq
        rw [← hEq, hlook] at hsome
        simp at hsome
      have hne2 : ¬ (MONTH_KEYS[idx]?.getD "" = key) := by simpa using hne
      cases hnet : net n (MONTH_KEYS.getD idx "") with
      | some d =>
        rw [fetchMonth_eq_ok st idx d hlook, List.countP_cons]
        rw [ih ⟨(MONTH_KEYS.getD idx "", d) :: st.cache, some d⟩ (n + 1)
            (by rw [lookupCache_insert_ne _ _ _ _ (beq_eq_false_iff_ne.2 hne)]
                exact hsome)]
        simp [hne2]
      | none =>
        rw [fetchMonth_eq_fail st idx hlook, List.countP_cons]
        rw [ih st (n + 1) hsome]
        simp

theorem runFetches_at_most_one_ok (net : ℕ → String → Option ClimateData)
    (key : String) :
    ∀ (requests : List ℕ) (st : SessionState) (n : ℕ),
      ((runFetches net st n requests).countP
        (fun e => e.1 == key && e.2 == FetchEvent.fetchOk)) ≤ 1 := by
  intro requests
  induction requests with
  | nil => intro st n; simp [runFetches]
  | cons idx rest ih =>
    intro st n
    rw [runFetches]
    cases hlook : lookupCache st.cache (MONTH_KEYS.getD idx "") with
    | some d =>
      rw [fetchMonth_eq_hit st idx _ d hlook, List.countP_cons]
      simpa using ih ⟨st.cache, some d⟩ (n + 1)
    | none =>
      cases hnet : net n (MONTH_KEYS.getD idx "") with
      | some d =>
        rw [fetchMonth_eq_ok st idx d hlook, List.countP_cons]
        by_cases hkey : MONTH_KEYS.getD idx "" = key
        · have hzero := runFetches_cached_ok net key rest
            ⟨(MONTH_KEYS.getD idx "", d) :: st.cache, some d⟩ (n + 1)
            (by rw [← hkey, lookupCache_insert_self]; rfl)
          rw [hzero]
          simp
          split <;> norm_num
        · have hne2 : ¬ (MONTH_KEYS[idx]?.getD "" = key) := by simpa using hkey
          simpa [hne2] using ih ⟨(MONTH_KEYS.getD idx "", d) :: st.cache, some d⟩ (n + 1)
      | none =>
        rw [fetchMonth_eq_fail st idx hlook, List.countP_cons]
        simpa using ih st (n + 1)

/-- C4 counterexample: when the fetch promise rejects (there is no `.catch` in the
source), the key stays uncached, so two requests for July in one session issue two
network fetches for the same key — refuting the unconditional once-per-key bound. -/
theorem C4_cache_counterexample :
    ¬ (((runFetches (fun _ _ => none) initialState 0 [6, 6]).countP
        (fun e => e.1 == "jul" &&
          (e.2 == FetchEvent.fetchOk || e.2 == FetchEvent.fetchFail))) ≤ 1) := by
  decide

/-- C4 (amended): a request for a cached month key is answered synchronously from
the cache with no network access and unchanged cache; a rejected fetch leaves the
whole state unchanged — in particular the key uncached — which is what permits a
later re-fetch of that key; and over any session from the empty cache, at most one
fetch per distinct key succeeds: once a key's fetch has fulfilled, the key is
cached and never fetched again. -/
theorem C4_cache_single_fetch :
    (∀ st : SessionState, ∀ idx : ℕ, ∀ r : Option ClimateData, ∀ d : ClimateData,
        lookupCache st.cache (MONTH_KEYS.getD idx "") = some d →
        fetchMonth st idx r = (⟨st.cache, some d⟩, FetchEvent.cacheHit)) ∧
    (∀ st : SessionState, ∀ idx : ℕ,
        lookupCache st.cache (MONTH_KEYS.getD idx "") = none →
        fetchMonth st idx none = (st, FetchEvent.fetchFail)) ∧
    (∀ net : ℕ → String → Option ClimateData, ∀ requests : List ℕ, ∀ key : String,
        ((runFetches net initialState 0 requests).countP
          (fun e => e.1 == key && e.2 == FetchEvent.fetchOk)) ≤ 1) := by
  refine ⟨?_, ?_, ?_⟩
  · intro st idx r d hlook
    exact fetchMonth_eq_hit st idx r d hlook
  · intro st idx hlook
    exact fetchMonth_eq_fail st idx hlook
  · intro net requests key
    exact runFetches_at_most_one_ok net key requests initialState 0

theorem C4_cache_single_fetch_witness :
    fetchMonth ⟨[("jul", emptyClimate)], none⟩ 6 none =
      (⟨[("jul", emptyClimate)], some emptyClimate⟩, FetchEvent.cacheHit) :=
  C4_cache_single_fetch.1 ⟨[("jul", emptyClimate)], none⟩ 6 none emptyClimate (by rfl)

theorem not_take3_of_head {c : Char} (l : List Char) (h : c ≠ 'N') :
    ¬ ((c :: l).take 3 = ['N', 'a', 'N']) := by
  intro hEq
  have h3 : (c :: l).take 3 = c :: l.take 2 := rfl
  rw [h3] at hEq
  injection hEq with h1 _
  exact h h1

theorem not_take3_second {c d : Char} (l : List Char) (h : d ≠ 'a') :
    ¬ ((c :: d :: l).take 3 = ['N', 'a', 'N']) := by
  intro hEq
  have h3 : (c :: d :: l).take 3 = c :: d :: l.take 1 := rfl
  rw [h3] at hEq
  injection hEq with _ hEq2
  injection hEq2 with h2 _
  exact h h2

theorem not_take3_third {c d e : Char} (l : List Char) (h : e ≠ 'N') :
    ¬ ((c :: d :: e :: l).take 3 = ['N', 'a', 'N']) := by
  intro hEq
  have h3 : (c :: d :: e :: l).take 3 = [c, d, e] := rfl
  rw [h3] at hEq
  injection hEq with _ hEq2
  injection hEq2 with _ hEq3
  injection hEq3 with h3' _
  exact h h3'

theorem hasNaN_cons_false {c : Char} {l : List Char}
    (hc : ¬ ((c :: l).take 3 = ['N', 'a', 'N'])) (hl : hasNaN l = false) :
    hasNaN (c :: l) = false := by
  rw [show hasNaN (c :: l) =
      ((decide ((c :: l).take 3 = ['N', 'a', 'N'])) || hasNaN l) from rfl]
  rw [decide_eq_false hc, hl]
  rfl

theorem replaceNaN_cons_head (c : Char) (l : List Char) :
    ∃ h t, replaceNaN (c :: l) = h :: t ∧ (h = c ∨ h = 'n') := by
  rcases l with _ | ⟨d, _ | ⟨e, r⟩⟩
  · exact ⟨c, [], rfl, Or.inl rfl⟩
  · exact ⟨c, [d], rfl, Or.inl rfl⟩
  · by_cases hcase : c = 'N' ∧ d = 'a' ∧ e = 'N'
    · refine ⟨'n', 'u' :: 'l' :: 'l' :: replaceNaN r, ?_, Or.inr rfl⟩
      simp [replaceNaN, hcase]
    · refine ⟨c, replaceNaN (d :: e :: r), ?_, Or.inl rfl⟩
      simp [replaceNaN, hcase]

theorem hasNaN_replaceNaN_aux :
    ∀ (n : ℕ) (s : List Char), s.length ≤ n → hasNaN (replaceNaN s) = false := by
  intro n
  induction n with
  | zero =>
    intro s hs
    have : s = [] := List.length_eq_zero.1 (Nat.le_zero.1 hs)
    subst this
    rfl
  | succ n ih =>
    intro s hs
    rcases s with _ | ⟨c, _ | ⟨d, _ | ⟨e, r⟩⟩⟩
    · rfl
    · simp [replaceNaN, hasNaN, List.take]
    · simp [replaceNaN, hasNaN, List.take]
    · by_cases hcase : c = 'N' ∧ d = 'a' ∧ e = 'N'
      · obtain ⟨rfl, rfl, rfl⟩ := hcase
        rw [show replaceNaN ('N' :: 'a' :: 'N' :: r) = 'n' :: 'u' :: 'l' :: 'l' :: replaceNaN r
          from by simp [replaceNaN]]
        have hr : hasNaN (replaceNaN r) = false := by
          apply ih
          simp only [List.length_cons] at hs
          omega
        exact hasNaN_cons_false (not_take3_of_head _ (by decide))
          (hasNaN_cons_false (not_take3_of_head _ (by decide))
            (hasNaN_cons_false (not_take3_of_head _ (by decide))
              (hasNaN_cons_false (not_take3_of_head _ (by decide)) hr)))
      · rw [show replaceNaN (c :: d :: e :: r) = c :: replaceNaN (d :: e :: r)
          from by simp [replaceNaN, hcase]]
        have hr : hasNaN (replaceNaN (d :: e :: r)) = false := by
          apply ih
          simp only [List.length_cons] at hs ⊢
          omega
        apply hasNaN_cons_false _ hr
        by_cases hc : c = 'N'
        · subst hc
          by_cases hd : d = 'a'
          · subst hd
            have he : e ≠ 'N' := fun hE => hcase ⟨rfl, rfl, hE⟩
            rcases r with _ | ⟨f, r4⟩
            · rw [show replaceNaN ['a', e] = ['a', e] from rfl]
              exact not_take3_third _ he
            · rw [show replaceNaN ('a' :: e :: f :: r4) = 'a' :: replaceNaN (e :: f :: r4)
                from by
                  simp [replaceNaN, show ¬('a' = 'N' ∧ e = 'a' ∧ f = 'N') from
                    fun hcon => absurd hcon.1 (by decide)]]
              obtain ⟨h, t, heq, hh⟩ := replaceNaN_cons_head e (f :: r4)
              rw [heq]
              apply not_take3_third
              rcases hh with rfl | rfl
              · exact he
              · decide
          · obtain ⟨h, t, heq, hh⟩ := replaceNaN_cons_head d (e :: r)
            rw [heq]
            apply not_take3_second
            rcases hh with rfl | rfl
            · exact hd
            · decide
        · exact not_take3_of_head _ hc

/-- C9: the global `NaN`-to-`null` rewrite removes every occurrence of the literal
token `NaN`: applied to any fetched text it yields a text with no `NaN` occurrence
(so no parsed record can carry a textual `NaN`), and on a sample record fragment it
rewrites the `NaN` value to `null`. -/
theorem C9_replaceNaN_removes :
    (∀ s : List Char, hasNaN (replaceNaN s) = false) ∧
    replaceNaN ("\"delta_temp_c\": NaN, \"ok\": 2".toList) =
      "\"delta_temp_c\": null, \"ok\": 2".toList := by
  refine ⟨fun s => hasNaN_replaceNaN_aux s.length s le_rfl, by decide⟩
